import Mathlib

/-!
Verification of the exception extraction & aggregation engine of the
`jenkins-failures-analyzer` repository.

Python strings are embedded as `List Char`; Python `re` operations on the
handful of concrete patterns used by the source are embedded as
deterministic character-list parsers (each pattern is anchored or is a
plain scan, and in every pattern the greedy sub-parts are followed only by
optional material or by characters disjoint from the greedy class, so the
usual backtracking semantics coincide with the straightforward greedy
parse implemented here).
-/

abbrev Str := List Char

/-- Whitespace set of Python `str.strip` / `\s` (ASCII fragment). -/
def isSpaceC (c : Char) : Bool :=
  c = ' ' || c = '\t' || c = '\n' || c = '\r' || c = '\x0b' || c = '\x0c'

/-- Python `str.strip()`: drop leading and trailing whitespace. -/
def pyStrip (l : Str) : Str :=
  ((l.dropWhile isSpaceC).reverse.dropWhile isSpaceC).reverse

/-- Python `a in b` substring test (`strContains sub l` = `sub in l`). -/
def strContains (sub : Str) : Str → Bool
  | [] => sub.isEmpty
  | c :: rest => sub.isPrefixOf (c :: rest) || strContains sub rest

/-- Python `'\n'.join` over the embedded lines. -/
def joinNL : List Str → Str
  | [] => []
  | [l] => l
  | l :: ls => l ++ '\n' :: joinNL ls

/-- Python `s.split('\n')`: always returns at least one (possibly empty) piece. -/
def splitNl : Str → List Str
  | [] => [[]]
  | c :: rest =>
    if c = '\n' then [] :: splitNl rest
    else
      match splitNl rest with
      | [] => [[c]]
      | t :: ts => (c :: t) :: ts

/-- Python `str.split()` (split on whitespace runs, discarding empties);
structural recursion on a fuel argument so that the kernel can evaluate it
(every round consumes at least one character, so `l.length + 1` fuel is
always enough). -/
def wsSplitGo : Nat → Str → List Str
  | 0, _ => []
  | fuel + 1, l =>
    match l.dropWhile isSpaceC with
    | [] => []
    | c :: rest =>
      (c :: rest.takeWhile (fun x => !isSpaceC x)) ::
        wsSplitGo fuel (rest.dropWhile (fun x => !isSpaceC x))

def wsSplit (l : Str) : List Str :=
  wsSplitGo (l.length + 1) l

/-- Parse exactly one occurrence of character `c`, returning the remainder. -/
def pExact (c : Char) : Str → Option Str
  | [] => none
  | x :: xs => if x = c then some xs else none

/-- Parse exactly `n` decimal digits, returning the remainder. -/
def pDigits : Nat → Str → Option Str
  | 0, l => some l
  | _ + 1, [] => none
  | n + 1, x :: xs => if x.isDigit then pDigits n xs else none

/-- Prefix parser for the mandatory core `\d{4}-\d{2}-\d{2} \d{2}:\d{2}:\d{2}`
of both timestamp patterns of `log_analyzer.py`; returns the remainder. -/
def parseTsCore (l : Str) : Option Str :=
  (((((((((pDigits 4 l).bind (pExact '-')).bind (pDigits 2)).bind
    (pExact '-')).bind (pDigits 2)).bind (pExact ' ')).bind
    (pDigits 2)).bind (pExact ':')).bind (pDigits 2)).bind
    (fun r => ((pExact ':' r).bind (pDigits 2)))

/-- Line 21 of `log_analyzer.py`: `re.match(r'^\d{4}-\d{2}-\d{2} \d{2}:\d{2}:\d{2}', line)`. -/
def matchesShortTs (l : Str) : Bool :=
  (parseTsCore l).isSome

/-- Optional fraction `(?:[.,]\d+)?` (greedy digits; group skipped when no digit follows). -/
def dropFraction (l : Str) : Str :=
  match l with
  | c :: rest =>
    if (c = '.' || c = ',') && !(rest.takeWhile Char.isDigit).isEmpty then
      rest.dropWhile Char.isDigit
    else l
  | [] => l

/-- Optional pipe `(?:\|\s*)?`. -/
def dropPipe (l : Str) : Str :=
  match l with
  | '|' :: rest => rest.dropWhile isSpaceC
  | _ => l

/-- Optional log level `(?:INFO|ERROR|WARN|DEBUG|FATAL|TRACE)?`, alternatives
tried in the pattern's order. -/
def dropLevel (l : Str) : Str :=
  if ("INFO".data).isPrefixOf l then l.drop 4
  else if ("ERROR".data).isPrefixOf l then l.drop 5
  else if ("WARN".data).isPrefixOf l then l.drop 4
  else if ("DEBUG".data).isPrefixOf l then l.drop 5
  else if ("FATAL".data).isPrefixOf l then l.drop 5
  else if ("TRACE".data).isPrefixOf l then l.drop 5
  else l

/-- Tail `\s*(?:\|\s*)?(?:INFO|...)?\s*(?:\|\s*)?` of the long timestamp
pattern (lines 126 and 174 of `log_analyzer.py`), applied after the core
and the optional fraction. -/
def afterTsTail (l : Str) : Str :=
  dropPipe ((dropLevel (dropPipe (l.dropWhile isSpaceC))).dropWhile isSpaceC)

/-- Longest match of the long timestamp-and-level pattern at the start of
the line; `some r` gives the remainder after the matched prefix. -/
def dropLongTs (l : Str) : Option Str :=
  (parseTsCore l).map (fun r => afterTsTail (dropFraction r))

/-- Single- or double-quote character parameterising the opaque-token rules. -/
def squote : Char := '\''

/-- Global substitution `re.sub(r"q[A-Za-z0-9+/=_-]{50,}q", "q<token>q", s)`
for a quote character `q` (lines 179-180 of `log_analyzer.py`): at each
quote, the maximal run of token-class characters must have length at least
50 and be closed by another quote; scanning resumes after the match. -/
def isTokenClass (c : Char) : Bool :=
  c.isAlphanum || c = '+' || c = '/' || c = '=' || c = '_' || c = '-'

def tokenSubGo (q : Char) : Nat → Str → Str
  | _, [] => []
  | 0, l => l
  | fuel + 1, c :: rest =>
    if c = q then
      let run := rest.takeWhile isTokenClass
      let after := rest.dropWhile isTokenClass
      if 50 ≤ run.length ∧ after.head? = some q then
        (q :: "<token>".data ++ [q]) ++ tokenSubGo q fuel after.tail
      else
        c :: tokenSubGo q fuel rest
    else
      c :: tokenSubGo q fuel rest

def tokenSub (q : Char) (l : Str) : Str :=
  tokenSubGo q l.length l

/-- Leading-colon cleanup `re.sub(r'^:\s*', '', s)` (line 183). -/
def stripLeadColon (l : Str) : Str :=
  match l with
  | ':' :: rest => rest.dropWhile isSpaceC
  | _ => l

/-- Normalizer `LogAnalyzer._normalize_exception_line` (lines 166-185 of
`log_analyzer.py`): replace a leading timestamp/level prefix with
`<timestamp>`, strip, replace long quoted opaque tokens, strip a leading
colon. -/
def _normalize_exception_line (l : Str) : Str :=
  if l = [] then l
  else
    let n1 := match dropLongTs l with
      | some r => "<timestamp>".data ++ r
      | none => l
    let n2 := pyStrip n1
    let n3 := tokenSub squote n2
    let n4 := tokenSub '"' n3
    stripLeadColon n4

example : _normalize_exception_line "::x".data = ":x".data := by decide
example : _normalize_exception_line ":x".data = "x".data := by decide
example :
    _normalize_exception_line "2024-01-01 10:00:00 | ERROR | boom".data =
      "<timestamp>boom".data := by decide

/-! ### TypeClassifier (`LogAnalyzer._extract_exception_type`, lines 117-164) -/

def isIdentHead (c : Char) : Bool := c.isAlpha || c = '_'

def isIdentTail (c : Char) : Bool := c.isAlphanum || c = '_' || c = '.'

def lowerStr (l : Str) : Str := l.map Char.toLower

/-- Alternatives of `(?:Exception|Error|Warning)` in the pattern's order. -/
def excSuffixes : List Str := ["Exception".data, "Error".data, "Warning".data]

/-- At star length `k`, check whether one of the suffix words followed by
`\s*:` matches; on success return the full matched identifier group
(star text plus suffix word). -/
def checkSuffixAt (tl : Str) (k : Nat) : Option Str :=
  (excSuffixes.find? (fun w =>
    w.isPrefixOf (tl.drop k) &&
      (((tl.drop k).drop w.length).dropWhile isSpaceC).head? == some ':')).map
    (fun w => tl.take k ++ w)

/-- Backtracking of the greedy `[A-Za-z0-9_.]*`: try the longest star first. -/
def tryStar (tl : Str) : Nat → Option Str
  | 0 => checkSuffixAt tl 0
  | k + 1 =>
    match checkSuffixAt tl (k + 1) with
    | some s => some s
    | none => tryStar tl k

/-- Prefix match of `^([A-Za-z_][A-Za-z0-9_.]*(?:Exception|Error|Warning))\s*:`
(line 133 of `log_analyzer.py`), returning the captured group. All star
lengths tried are at most the maximal identifier-class run, so the star
text always consists of identifier-class characters. -/
def matchExcPrefix (l : Str) : Option Str :=
  match l with
  | [] => none
  | h :: tl =>
    if isIdentHead h then
      (tryStar tl (tl.takeWhile isIdentTail).length).map (fun s => h :: s)
    else none

def peHeadUpper (pe : Str) : Bool :=
  match pe with
  | [] => false
  | c :: _ => c.isUpper

/-- Classifier `LogAnalyzer._extract_exception_type` (lines 117-164):
strip the timestamp/level prefix, then exception-pattern match, then
colon-head heuristics, then first-word fallback, with `"BuildFailure"`
as the last resort. -/
def _extract_exception_type (l : Str) : Str :=
  if l = [] then "Unknown".data
  else
    let lwt := pyStrip ((dropLongTs l).getD l)
    if lwt = [] then "Unknown".data
    else
      match matchExcPrefix lwt with
      | some ident => ident
      | none =>
        let colonBranch : Option Str :=
          if strContains [':'] lwt then
            let pe := pyStrip (lwt.takeWhile (fun c => !(c == ':')))
            if strContains ['.'] pe &&
                (("Exception".data).isSuffixOf pe || ("Error".data).isSuffixOf pe ||
                  ("Warning".data).isSuffixOf pe) then some pe
            else if (wsSplit pe).length == 1 && peHeadUpper pe &&
                decide (3 < pe.length) then some pe
            else none
          else none
        match colonBranch with
        | some pe => pe
        | none =>
          let fw := (wsSplit lwt).headD ("Unknown".data)
          if ["error".data, "exception".data, "failed".data, "fatal".data].any
              (fun p => strContains p (lowerStr fw)) then fw
          else "BuildFailure".data

example :
    _extract_exception_type
        "2024-01-01 10:00:00 | ERROR | myapp.utils.MyCustomException: boom".data =
      "myapp.utils.MyCustomException".data := by decide
example : _extract_exception_type [] = "Unknown".data := by decide
example : _extract_exception_type [' '] = "Unknown".data := by decide
example : _extract_exception_type "FATAL: disk full".data = "FATAL".data := by decide
example : _extract_exception_type "just some text".data = "BuildFailure".data := by decide

/-! ### LogExtractor (`LogAnalyzer.extract_exception_from_log`, lines 13-115) -/

/-- Index of the last line satisfying `p` (the backward `for i in
range(len(lines) - 1, -1, -1)` scans of `log_analyzer.py`). -/
def lastIdxWhere (p : Str → Bool) : List Str → Option Nat
  | [] => none
  | l :: ls =>
    match lastIdxWhere p ls with
    | some i => some (i + 1)
    | none => if p l then some 0 else none

/-- Index of the first line satisfying `p` (the forward scans that locate
the build-failure marker). -/
def firstIdxWhere (p : Str → Bool) : List Str → Option Nat
  | [] => none
  | l :: ls => if p l then some 0 else (firstIdxWhere p ls).map (· + 1)

/-- Occurrence of `kw` followed by `\s*:` somewhere in the line. This
embeds `re.search(r'\b\w*kw\s*:', line)`: the leading `\b\w*` is vacuous,
because for any occurrence of `kw` the start of the maximal word-character
run ending at that occurrence is itself a word boundary from which `\w*`
can span the gap. -/
def hasKwColon (kw : Str) : Str → Bool
  | [] => false
  | c :: rest =>
    (kw.isPrefixOf (c :: rest) &&
      (((c :: rest).drop kw.length).dropWhile isSpaceC).head? == some ':')
    || hasKwColon kw rest

/-- Line 36: `re.search(r'\b\w*Exception\s*:', line) or re.search(r'\b\w*Error\s*:', line)`. -/
def isExcSignatureLine (l : Str) : Bool :=
  hasKwColon ("Exception".data) l || hasKwColon ("Error".data) l

/-- False-positive markers of lines 38-41. -/
def falsePositiveMarkers : List Str :=
  ["<method".data, "with_traceback".data, "of '".data, "objects>".data,
   "raise".data, "except".data, "try:".data, "catch".data]

def hasFalsePositive (l : Str) : Bool :=
  falsePositiveMarkers.any (fun m => strContains m l)

/-- Lines 44-47 and 93-96: an entry of the ignore list suppresses a line
when it is non-empty (Python truthiness) and a substring of the line. -/
def isIgnoredBy (ignore : List Str) (l : Str) : Bool :=
  ignore.any (fun p => !p.isEmpty && strContains p l)

def acceptedExceptionLine (ignore : List Str) (l : Str) : Bool :=
  isExcSignatureLine l && !hasFalsePositive l && !isIgnoredBy ignore l

/-- Backward exception scan of lines 31-51. -/
def exceptionIdx (ignore : List Str) (lines : List Str) : Option Nat :=
  lastIdxWhere (acceptedExceptionLine ignore) lines

/-- Backward timestamp scan of lines 22-27. -/
def latestTsIdx (lines : List Str) : Option Nat :=
  lastIdxWhere matchesShortTs lines

/-- Occurrence of `a` followed later in the line by `b`; embeds the
case-lowered `re.search(r'a.*b', line)` (lines contain no newline, so `.`
matches every remaining character). -/
def containsThen (a b : Str) : Str → Bool
  | [] => false
  | c :: rest =>
    (a.isPrefixOf (c :: rest) && strContains b ((c :: rest).drop a.length))
    || containsThen a b rest

/-- Lines 80-90: the fallback error patterns `ERROR:`, `FATAL:`, `FAILED`,
`Build step.*failed`, searched case-insensitively (both pattern and line
lowered). -/
def matchesErrPattern (l : Str) : Bool :=
  let low := lowerStr l
  strContains ("error:".data) low || strContains ("fatal:".data) low ||
    strContains ("failed".data) low ||
    containsThen ("build step".data) ("failed".data) low

/-- Lines 87-98: a fallback line is accepted when some pattern matches and
the ignore filter passes; the ignore test does not depend on which pattern
matched, so the inner pattern loop reduces to this conjunction. -/
def acceptedFallbackLine (ignore : List Str) (l : Str) : Bool :=
  matchesErrPattern l && !isIgnoredBy ignore l

def fallbackIdx (ignore : List Str) (lines : List Str) : Option Nat :=
  lastIdxWhere (acceptedFallbackLine ignore) lines

def markerStr : Str := "Build step 'Execute shell' marked build as failure".data

def hasMarker (l : Str) : Bool := strContains markerStr l

/-- Lines 69-73 and 105-109: the context ends just before the first line at
or after `start` containing the build-failure marker, else at the end. -/
def contextEndFrom (start : Nat) (lines : List Str) : Nat :=
  match firstIdxWhere hasMarker (lines.drop start) with
  | some k => start + k
  | none => lines.length

/-- The context block `lines[context_start:context_end]`. -/
def windowSlice (start : Nat) (lines : List Str) : List Str :=
  (lines.drop start).take (contextEndFrom start lines - start)

/-- Lines 54-66: anchor resolution on the exception path. When the latest
timestamp lies strictly after the exception, re-scan the lines before the
exception; when that re-scan finds nothing the stale later index is kept
(the Python loop leaves `latest_timestamp_index` unchanged). `ei - 10` is
natural subtraction, matching `max(0, exception_index - 10)`. -/
def resolvedStart (lines : List Str) (ei : Nat) : Nat :=
  match latestTsIdx lines with
  | none => ei - 10
  | some t =>
    if ei < t then
      match lastIdxWhere matchesShortTs (lines.take ei) with
      | some j => j
      | none => t
    else t

/-- Lines 99-102: anchor on the fallback path, without any re-scan. -/
def fallbackStart (lines : List Str) (i : Nat) : Nat :=
  match latestTsIdx lines with
  | some t => t
  | none => i - 10

/-- Line 18: `lines = log_content.strip().split('\n')`. -/
def linesOf (log : Str) : List Str := splitNl (pyStrip log)

/-- Extractor `LogAnalyzer.extract_exception_from_log` (lines 13-115); the
default `ignore_exceptions=None` of the Python signature is the `[]`
argument here. -/
def extract_exception_from_log (log : Str) (ignore : List Str) : Str × Str :=
  let lines := linesOf log
  match exceptionIdx ignore lines with
  | some ei =>
    (pyStrip (lines.getD ei []), joinNL (windowSlice (resolvedStart lines ei) lines))
  | none =>
    match fallbackIdx ignore lines with
    | some i =>
      (pyStrip (lines.getD i []), joinNL (windowSlice (fallbackStart lines i) lines))
    | none => ("No clear error found".data, [])

example :
    extract_exception_from_log
        "2024-01-01 09:59:00 starting\n2024-01-01 10:00:00 some.pkg.ValueError: bad input\nBuild step 'Execute shell' marked build as failure".data
        [] =
      ("2024-01-01 10:00:00 some.pkg.ValueError: bad input".data,
        "2024-01-01 10:00:00 some.pkg.ValueError: bad input".data) := by decide
example :
    extract_exception_from_log "nothing to see\nhere".data [] =
      ("No clear error found".data, []) := by decide
example :
    extract_exception_from_log "XError: boom\n2024-01-01 10:00:00 ok".data [] =
      ("XError: boom".data, "2024-01-01 10:00:00 ok".data) := by decide
example :
    extract_exception_from_log "ERROR: boom\n2024-01-01 10:00:00 done".data [] =
      ("ERROR: boom".data, "2024-01-01 10:00:00 done".data) := by decide
example :
    extract_exception_from_log "a TimeoutError: x\nrest".data ["TimeoutError".data] =
      ("No clear error found".data, []) := by decide

/-! ### Aggregation (`StreamingLogProcessor.process_failed_builds`, lines 59-129)

The nested `defaultdict` of line 59 is an insertion-ordered mapping
`job → category → {count, unique_messages}`; it is embedded as nested
association lists in insertion order, with the implicit-create-on-access
semantics captured by `alUpdate`. -/

structure TypeAgg where
  count : Nat
  unique_messages : List (Str × List Str)
deriving DecidableEq

abbrev CatMap := List (Str × TypeAgg)

abbrev JobMap := List (Str × CatMap)

def alLookup {β : Type} (k : Str) : List (Str × β) → Option β
  | [] => none
  | (k', v) :: rest => if k' = k then some v else alLookup k rest

/-- Update the value at key `k` in place, creating it (from default `d`,
appended in insertion order) when absent — the `defaultdict` access
pattern of lines 98-118. -/
def alUpdate {β : Type} (k : Str) (d : β) (f : β → β) : List (Str × β) → List (Str × β)
  | [] => [(k, f d)]
  | (k', v) :: rest => if k' = k then (k', f v) :: rest else (k', v) :: alUpdate k d f rest

def emptyAgg : TypeAgg := ⟨0, []⟩

/-- Lines 104-107: append the build URL only when not already present. -/
def addUrlDedup (u : Str) (urls : List Str) : List Str :=
  if u ∈ urls then urls else urls ++ [u]

/-- Lines 98-107: one successfully analyzed build is recorded — the count
is incremented unconditionally, the message key is created when new, and
the build URL is appended with deduplication. -/
def recordBuild (st : JobMap) (job cat msg url : Str) : JobMap :=
  alUpdate job [] (fun cats =>
    alUpdate cat emptyAgg (fun a =>
      ⟨a.count + 1, alUpdate msg [] (addUrlDedup url) a.unique_messages⟩) cats) st

def fetchErrMsg : Str := "Error fetching log content".data

/-- Lines 113-118: a failed log fetch is recorded under the synthetic
`LogFetchError` category with a fixed message; the build URL is appended
unconditionally (no membership check in the source). -/
def recordFetchError (st : JobMap) (job url : Str) : JobMap :=
  alUpdate job [] (fun cats =>
    alUpdate ("LogFetchError".data) emptyAgg (fun a =>
      ⟨a.count + 1,
        alUpdate fetchErrMsg [] (fun urls => urls ++ [url]) a.unique_messages⟩) cats) st

def catsOf (st : JobMap) (j : Str) : CatMap := (alLookup j st).getD []

def aggOf (st : JobMap) (j c : Str) : TypeAgg := (alLookup c (catsOf st j)).getD emptyAgg

def countOf (st : JobMap) (j c : Str) : Nat := (aggOf st j c).count

def urlsOf (st : JobMap) (j c m : Str) : List Str :=
  (alLookup m (aggOf st j c).unique_messages).getD []

/-- One processed build of the per-build loop (lines 80-119): either an
analyzed log or a failed fetch. -/
inductive ProcStep where
  | build (job cat msg url : Str)
  | fetchFail (job url : Str)
deriving DecidableEq

def applyStep (st : JobMap) : ProcStep → JobMap
  | .build j c m u => recordBuild st j c m u
  | .fetchFail j u => recordFetchError st j u

/-- The aggregate state after a run processing the given builds in order,
starting from the empty mapping of line 59. -/
def applySteps (steps : List ProcStep) : JobMap :=
  steps.foldl applyStep []

def applyCalls (calls : List (Str × Str × Str × Str)) : JobMap :=
  calls.foldl (fun st c => recordBuild st c.1 c.2.1 c.2.2.1 c.2.2.2) []

/-- Boolean no-duplicate check for a build-URL list. -/
def nodupB : List Str → Bool
  | [] => true
  | x :: xs => !(decide (x ∈ xs)) && nodupB xs

/-- Every build-URL list of every message of every (job, category) entry is
duplicate-free. -/
def invC6 (st : JobMap) : Bool :=
  st.all (fun p => p.2.all (fun q => q.2.unique_messages.all (fun r => nodupB r.2)))

/-- Every (job, category) entry present has a positive count, a non-empty
message mapping, and a non-empty URL list for every message. -/
def invC10 (st : JobMap) : Bool :=
  st.all (fun p => p.2.all (fun q =>
    decide (1 ≤ q.2.count) && !q.2.unique_messages.isEmpty &&
      q.2.unique_messages.all (fun r => !r.2.isEmpty)))

/-! ### Presentation ordering (`slack_notifier.py` and
`LogAnalyzer.print_console_summary`)

Python's `sorted` is a stable sort; a stable sort with respect to a total
preorder is unique, so it is embedded as `List.insertionSort` (stable) with
the corresponding relation. `sorted(..., key=k, reverse=True)` keeps
elements with equal keys in their original order, which is the stable sort
for the relation `k b ≤ k a`. -/

/-- Total failures of one job: `sum(data['count'] for data in x[1].values())`. -/
def jobTotal (cats : CatMap) : Nat := (cats.map (fun p => p.2.count)).sum

/-- Descending-total-count relation of `slack_notifier.py` lines 131-134. -/
def rJobs (a b : Str × CatMap) : Prop := jobTotal b.2 ≤ jobTotal a.2

/-- Descending-count relation of `slack_notifier.py` lines 160-163. -/
def rCats (a b : Str × TypeAgg) : Prop := b.2.count ≤ a.2.count

instance : DecidableRel rJobs := fun _ _ => Nat.decLe _ _

instance : DecidableRel rCats := fun _ _ => Nat.decLe _ _

instance : IsTotal (Str × CatMap) rJobs := ⟨fun _ _ => Nat.le_total _ _⟩

instance : IsTrans (Str × CatMap) rJobs := ⟨fun _ _ _ h h' => le_trans h' h⟩

instance : IsTotal (Str × TypeAgg) rCats := ⟨fun _ _ => Nat.le_total _ _⟩

instance : IsTrans (Str × TypeAgg) rCats := ⟨fun _ _ _ h h' => le_trans h' h⟩

/-- Job iteration order of `SlackNotifier.send_summary` (lines 131-134):
`sorted(job_exceptions.items(), key=..., reverse=True)`. -/
def slackSortedJobs (st : JobMap) : JobMap := List.insertionSort rJobs st

/-- Category iteration order within a job (lines 160-163). -/
def slackSortedCats (cats : CatMap) : CatMap := List.insertionSort rCats cats

/-- Python string comparison: lexicographic by code point, a shorter prefix
comparing less. -/
def strLe : Str → Str → Bool
  | [], _ => true
  | _ :: _, [] => false
  | a :: as, b :: bs => if a < b then true else if b < a then false else strLe as bs

/-- Name order used by `LogAnalyzer.print_console_summary` (lines 191 and
194): `sorted(job_exceptions.items())` compares the `(name, value)` tuples,
which on distinct dictionary keys is the name order. -/
def rName (a b : Str × CatMap) : Prop := strLe a.1 b.1 = true

def rNameCats (a b : Str × TypeAgg) : Prop := strLe a.1 b.1 = true

instance : DecidableRel rName := fun _ _ => instDecidableEqBool _ _

instance : DecidableRel rNameCats := fun _ _ => instDecidableEqBool _ _

def consoleSortedJobs (st : JobMap) : JobMap := List.insertionSort rName st

def consoleSortedCats (cats : CatMap) : CatMap := List.insertionSort rNameCats cats

example :
    urlsOf (recordFetchError (recordFetchError [] ("j".data) ("u".data)) ("j".data) ("u".data))
      ("j".data) ("LogFetchError".data) fetchErrMsg = ["u".data, "u".data] := by decide
example :
    countOf (applyCalls [("j".data, "c".data, "m".data, "u".data),
      ("j".data, "c".data, "m".data, "u".data)]) ("j".data) ("c".data) = 2 := by decide

/-! ### AggregationStore lifecycle (spec section 4.4) -/

/-- Modelled from the spec: the `record()`/`finalize()` API of the
AggregationStore component is not present in `src/` — the source inlines
the aggregation as a `defaultdict` in `process_failed_builds` and has no
finalize operation or closed state. Spec section 4.4 specifies
`finalize() → JobFailureIndex` and that a later `record()` fails with a
usage/state error, with the state machine Open → (record)* → finalize() →
Closed and Closed terminal. -/
structure AggregationStore where
  index : JobMap
  closed : Bool

def stateErrMsg : Str := "record called after finalize".data

/-- Modelled from the spec: `record` applies the recording step of the
source when the store is open and signals a state error when closed. -/
def storeRecord (s : AggregationStore) (j c m u : Str) :
    Except Str AggregationStore :=
  if s.closed then Except.error stateErrMsg
  else Except.ok ⟨recordBuild s.index j c m u, false⟩

/-- Modelled from the spec: `finalize` yields the immutable snapshot and
moves the store to the terminal Closed state. -/
def storeFinalize (s : AggregationStore) : JobMap × AggregationStore :=
  (s.index, ⟨s.index, true⟩)

/-! ### Lemmas about the scan helpers -/

theorem lastIdxWhere_lt_length (p : Str → Bool) :
    ∀ (lines : List Str) (i : Nat), lastIdxWhere p lines = some i → i < lines.length := by
  intro lines
  induction lines with
  | nil => intro i h; simp [lastIdxWhere] at h
  | cons l ls ih =>
    intro i h
    simp only [lastIdxWhere] at h
    cases hls : lastIdxWhere p ls with
    | some j =>
      rw [hls] at h
      cases h
      have := ih j hls
      simp only [List.length_cons]
      omega
    | none =>
      rw [hls] at h
      by_cases hp : p l
      · simp [hp] at h
        cases h
        simp
      · simp [hp] at h

theorem lastIdxWhere_holds (p : Str → Bool) :
    ∀ (lines : List Str) (i : Nat), lastIdxWhere p lines = some i →
      p (lines.getD i []) = true := by
  intro lines
  induction lines with
  | nil => intro i h; simp [lastIdxWhere] at h
  | cons l ls ih =>
    intro i h
    simp only [lastIdxWhere] at h
    cases hls : lastIdxWhere p ls with
    | some j =>
      rw [hls] at h
      cases h
      simpa using ih j hls
    | none =>
      rw [hls] at h
      by_cases hp : p l
      · simp [hp] at h
        cases h
        simpa using hp
      · simp [hp] at h

theorem lastIdxWhere_none (p : Str → Bool) :
    ∀ (lines : List Str), (∀ l ∈ lines, p l = false) → lastIdxWhere p lines = none := by
  intro lines
  induction lines with
  | nil => intro _; rfl
  | cons l ls ih =>
    intro h
    simp only [lastIdxWhere]
    rw [ih (fun x hx => h x (List.mem_cons_of_mem _ hx))]
    simp [h l (List.mem_cons_self _ _)]

theorem firstIdxWhere_before (p : Str → Bool) :
    ∀ (ls : List Str) (k : Nat), firstIdxWhere p ls = some k →
      ∀ x ∈ ls.take k, p x = false := by
  intro ls
  induction ls with
  | nil => intro k h; simp [firstIdxWhere] at h
  | cons l ls ih =>
    intro k h x hx
    simp only [firstIdxWhere] at h
    by_cases hp : p l
    · rw [if_pos hp] at h
      cases h
      simp at hx
    · rw [if_neg hp] at h
      cases hfi : firstIdxWhere p ls with
      | none => rw [hfi] at h; simp at h
      | some j =>
        rw [hfi] at h
        simp only [Option.map_some'] at h
        cases h
        simp only [List.take_succ_cons, List.mem_cons] at hx
        rcases hx with rfl | hx
        · simpa using hp
        · exact ih j hfi x hx

theorem firstIdxWhere_none (p : Str → Bool) :
    ∀ (ls : List Str), firstIdxWhere p ls = none → ∀ x ∈ ls, p x = false := by
  intro ls
  induction ls with
  | nil => intro _ x hx; simp at hx
  | cons l ls ih =>
    intro h x hx
    simp only [firstIdxWhere] at h
    by_cases hp : p l
    · simp [hp] at h
    · simp [hp] at h
      rcases List.mem_cons.mp hx with rfl | hx'
      · simpa using hp
      · exact ih h x hx'

theorem windowSlice_no_marker (start : Nat) (lines : List Str) :
    ∀ x ∈ windowSlice start lines, hasMarker x = false := by
  intro x hx
  unfold windowSlice contextEndFrom at hx
  cases hfi : firstIdxWhere hasMarker (lines.drop start) with
  | some k =>
    rw [hfi] at hx
    have hk : start + k - start = k := by omega
    rw [hk] at hx
    exact firstIdxWhere_before hasMarker (lines.drop start) k hfi x hx
  | none =>
    rw [hfi] at hx
    exact firstIdxWhere_none hasMarker (lines.drop start) hfi x (List.mem_of_mem_take hx)

/-! ### Claim C2 -/

/-- C2 (amended): on the exception path, when the latest timestamp is not
strictly after the exception line, or no timestamp line exists, or the
backward re-scan from `exceptionIndex - 1` finds a preceding timestamp
line, the context window starts at or before the failure line. (When the
re-scan finds nothing the stale later anchor is kept and the window can
start after the failure line.) -/
theorem C2_window_start_le_exception (ignore : List Str) (lines : List Str) (ei : Nat)
    (hex : exceptionIdx ignore lines = some ei)
    (hres : latestTsIdx lines = none ∨ (∃ t, latestTsIdx lines = some t ∧ t ≤ ei) ∨
      (∃ j, lastIdxWhere matchesShortTs (lines.take ei) = some j)) :
    resolvedStart lines ei ≤ ei := by
  have _ := hex
  cases hts : latestTsIdx lines with
  | none =>
    simp only [resolvedStart, hts]
    exact Nat.sub_le _ _
  | some t =>
    simp only [resolvedStart, hts]
    by_cases hlt : ei < t
    · rw [if_pos hlt]
      cases hre : lastIdxWhere matchesShortTs (lines.take ei) with
      | some j =>
        have hj := lastIdxWhere_lt_length _ _ _ hre
        have hlen : (lines.take ei).length ≤ ei := by
          rw [List.length_take]
          exact Nat.min_le_left _ _
        show j ≤ ei
        omega
      | none =>
        rcases hres with h1 | ⟨t', ht', hle⟩ | ⟨j, hj⟩
        · rw [hts] at h1; cases h1
        · rw [hts] at ht'; cases ht'; omega
        · rw [hre] at hj; cases hj
    · rw [if_neg hlt]
      omega

/-- C2 (counterexample): with log `"XError: boom\n2024-01-01 10:00:00 ok"`
the exception line is at index 0 but the latest timestamp line at index 1
lies after it and the re-scan finds no earlier timestamp, so the stale
anchor is kept: the context window starts at index 1, after the failure
line, and the returned context consists of the line following the failure
line. -/
theorem C2_counterexample :
    exceptionIdx [] (linesOf ("XError: boom\n2024-01-01 10:00:00 ok".data)) = some 0 ∧
    resolvedStart (linesOf ("XError: boom\n2024-01-01 10:00:00 ok".data)) 0 = 1 ∧
    extract_exception_from_log ("XError: boom\n2024-01-01 10:00:00 ok".data) [] =
      ("XError: boom".data, "2024-01-01 10:00:00 ok".data) := by
  decide

/-- C2 (witness): a concrete log where the timestamp anchor resolves at or
before the exception line. -/
theorem C2_window_start_le_exception_witness :
    exceptionIdx [] (linesOf ("2024-01-01 09:00:00 a\nXError: x".data)) = some 1 ∧
    latestTsIdx (linesOf ("2024-01-01 09:00:00 a\nXError: x".data)) = some 0 ∧
    resolvedStart (linesOf ("2024-01-01 09:00:00 a\nXError: x".data)) 1 ≤ 1 :=
  ⟨by decide, by decide,
    C2_window_start_le_exception [] _ 1 (by decide)
      (Or.inr (Or.inl ⟨0, by decide, by decide⟩))⟩

/-! ### Claim C3 -/

/-- C3 (amended): in the fallback pass the extractor applies the same
ignore-list filter and the same marker-cutoff context-window rule, with
the returned line being the matched error-pattern line; but the timestamp
anchor is not re-resolved — the window starts at the raw latest-timestamp
index when one exists (else `max(0, i - 10)`), which can lie after the
matched line. -/
theorem C3_fallback_window (log : Str) (ignore : List Str) (i : Nat)
    (hex : exceptionIdx ignore (linesOf log) = none)
    (hfb : fallbackIdx ignore (linesOf log) = some i) :
    extract_exception_from_log log ignore =
      (pyStrip ((linesOf log).getD i []),
        joinNL (windowSlice (fallbackStart (linesOf log) i) (linesOf log))) ∧
    isIgnoredBy ignore ((linesOf log).getD i []) = false ∧
    matchesErrPattern ((linesOf log).getD i []) = true := by
  have hacc := lastIdxWhere_holds _ _ _ hfb
  unfold acceptedFallbackLine at hacc
  rw [Bool.and_eq_true, Bool.not_eq_true'] at hacc
  refine ⟨?_, hacc.2, hacc.1⟩
  simp only [extract_exception_from_log, hex, hfb]

/-- C3 (counterexample): with log `"ERROR: boom\n2024-01-01 10:00:00 done"`
no exception-signature line exists, the fallback selects index 0, yet the
context window is anchored at the raw latest-timestamp index 1 — after the
matched line, which the returned context does not even contain. -/
theorem C3_counterexample :
    exceptionIdx [] (linesOf ("ERROR: boom\n2024-01-01 10:00:00 done".data)) = none ∧
    fallbackIdx [] (linesOf ("ERROR: boom\n2024-01-01 10:00:00 done".data)) = some 0 ∧
    fallbackStart (linesOf ("ERROR: boom\n2024-01-01 10:00:00 done".data)) 0 = 1 ∧
    extract_exception_from_log ("ERROR: boom\n2024-01-01 10:00:00 done".data) [] =
      ("ERROR: boom".data, "2024-01-01 10:00:00 done".data) := by
  decide

/-- C3 (witness): a concrete one-line log taking the fallback path. -/
theorem C3_fallback_window_witness :
    exceptionIdx [] (linesOf ("FATAL: x".data)) = none ∧
    fallbackIdx [] (linesOf ("FATAL: x".data)) = some 0 ∧
    (extract_exception_from_log ("FATAL: x".data) [] =
      (pyStrip ((linesOf ("FATAL: x".data)).getD 0 []),
        joinNL (windowSlice (fallbackStart (linesOf ("FATAL: x".data)) 0)
          (linesOf ("FATAL: x".data)))) ∧
      isIgnoredBy [] ((linesOf ("FATAL: x".data)).getD 0 []) = false ∧
      matchesErrPattern ((linesOf ("FATAL: x".data)).getD 0 []) = true) :=
  ⟨by decide, by decide, C3_fallback_window _ [] 0 (by decide) (by decide)⟩

/-! ### Claim C8 -/

/-- C8: the extractor is a total function of the embedded state, and for
any log none of whose lines matches the exception-signature pattern or any
fallback error pattern, it returns exactly the sentinel pair
`("No clear error found", "")`. -/
theorem C8_sentinel (log : Str) (ignore : List Str)
    (h : ∀ l ∈ linesOf log, isExcSignatureLine l = false ∧ matchesErrPattern l = false) :
    extract_exception_from_log log ignore = ("No clear error found".data, []) := by
  have h1 : exceptionIdx ignore (linesOf log) = none := by
    apply lastIdxWhere_none
    intro l hl
    unfold acceptedExceptionLine
    rw [(h l hl).1]
    rfl
  have h2 : fallbackIdx ignore (linesOf log) = none := by
    apply lastIdxWhere_none
    intro l hl
    unfold acceptedFallbackLine
    rw [(h l hl).2]
    rfl
  simp only [extract_exception_from_log, h1, h2]

/-- C8 (witness): a concrete patternless log yields the sentinel. -/
theorem C8_sentinel_witness :
    (∀ l ∈ linesOf ("hello\nworld".data),
      isExcSignatureLine l = false ∧ matchesErrPattern l = false) ∧
    extract_exception_from_log ("hello\nworld".data) [] =
      ("No clear error found".data, []) :=
  ⟨by decide, C8_sentinel _ [] (by decide)⟩

/-! ### Claim C5 -/

/-- C5: after `finalize` the store is in the terminal Closed state, any
further `record` call fails with the usage/state error, and finalizing
again leaves the store Closed — Open → (record)* → finalize() → Closed
with no reopening. (Settled against the spec-modelled store, since the
source inlines the aggregation without a finalize operation.) -/
theorem C5_record_after_finalize (s : AggregationStore) (j c m u : Str) :
    (storeFinalize s).2.closed = true ∧
    storeRecord (storeFinalize s).2 j c m u = Except.error stateErrMsg ∧
    (storeFinalize (storeFinalize s).2).2.closed = true := by
  refine ⟨rfl, ?_, rfl⟩
  simp [storeRecord, storeFinalize]

/-! ### Lemmas about the aggregation maps -/

theorem alUpdate_all {β : Type} (g : Str × β → Bool) (k : Str) (d : β) (f : β → β)
    (hfd : g (k, f d) = true) (hf : ∀ k' v, g (k', v) = true → g (k', f v) = true) :
    ∀ m : List (Str × β), m.all g = true → (alUpdate k d f m).all g = true := by
  intro m
  induction m with
  | nil => intro _; simp [alUpdate, hfd]
  | cons kv rest ih =>
    obtain ⟨k', v⟩ := kv
    intro hm
    simp only [List.all_cons, Bool.and_eq_true] at hm
    simp only [alUpdate]
    by_cases hk : k' = k
    · rw [if_pos hk]
      simp only [List.all_cons, Bool.and_eq_true]
      exact ⟨hf k' v hm.1, hm.2⟩
    · rw [if_neg hk]
      simp only [List.all_cons, Bool.and_eq_true]
      exact ⟨hm.1, ih hm.2⟩

theorem alLookup_alUpdate {β : Type} (k : Str) (d : β) (f : β → β) :
    ∀ m : List (Str × β), alLookup k (alUpdate k d f m) = some (f ((alLookup k m).getD d)) := by
  intro m
  induction m with
  | nil => simp [alLookup, alUpdate]
  | cons kv rest ih =>
    obtain ⟨k', v⟩ := kv
    simp only [alUpdate, alLookup]
    by_cases hk : k' = k
    · rw [if_pos hk]
      simp [alLookup, hk]
    · rw [if_neg hk]
      simp [alLookup, hk, ih]

theorem alUpdate_isEmpty_false {β : Type} (k : Str) (d : β) (f : β → β)
    (m : List (Str × β)) : (alUpdate k d f m).isEmpty = false := by
  cases m with
  | nil => rfl
  | cons kv rest =>
    obtain ⟨k', v⟩ := kv
    simp only [alUpdate]
    by_cases hk : k' = k
    · rw [if_pos hk]; rfl
    · rw [if_neg hk]; rfl

theorem nodupB_snoc (u : Str) :
    ∀ urls : List Str, u ∉ urls → nodupB urls = true → nodupB (urls ++ [u]) = true := by
  intro urls
  induction urls with
  | nil => intro _ _; simp [nodupB]
  | cons x xs ih =>
    intro hu hx
    simp only [nodupB, Bool.and_eq_true, Bool.not_eq_true', decide_eq_false_iff_not] at hx
    simp only [List.cons_append, nodupB, Bool.and_eq_true, Bool.not_eq_true',
      decide_eq_false_iff_not]
    refine ⟨?_, ih (fun h => hu (List.mem_cons_of_mem _ h)) hx.2⟩
    intro hmem
    rcases List.mem_append.mp hmem with h1 | h2
    · exact hx.1 h1
    · have hxu : x = u := by simpa using h2
      exact hu (hxu ▸ List.mem_cons_self _ _)

theorem addUrlDedup_nodupB (u : Str) (urls : List Str) (h : nodupB urls = true) :
    nodupB (addUrlDedup u urls) = true := by
  unfold addUrlDedup
  by_cases hm : u ∈ urls
  · rw [if_pos hm]; exact h
  · rw [if_neg hm]; exact nodupB_snoc u urls hm h

theorem invC6_recordBuild (st : JobMap) (j c m u : Str) (h : invC6 st = true) :
    invC6 (recordBuild st j c m u) = true := by
  unfold invC6 recordBuild
  apply alUpdate_all _ _ _ _ ?_ ?_ _ h
  · apply alUpdate_all _ _ _ _ ?_ ?_ _ (by rfl)
    · simp only [List.all_cons, List.all_nil, Bool.and_true]
      simp [emptyAgg, alUpdate, addUrlDedup, nodupB]
    · intro c' a ha
      apply alUpdate_all _ _ _ _ ?_ ?_ _ ha
      · simp [emptyAgg, alUpdate, addUrlDedup, nodupB]
      · intro m' urls hurls
        exact addUrlDedup_nodupB u urls hurls
  · intro j' cats hcats
    apply alUpdate_all _ _ _ _ ?_ ?_ _ hcats
    · simp only [List.all_cons, List.all_nil, Bool.and_true]
      simp [emptyAgg, alUpdate, addUrlDedup, nodupB]
    · intro c' a ha
      apply alUpdate_all _ _ _ _ ?_ ?_ _ ha
      · simp [emptyAgg, alUpdate, addUrlDedup, nodupB]
      · intro m' urls hurls
        exact addUrlDedup_nodupB u urls hurls

theorem invC6_applyCalls :
    ∀ (calls : List (Str × Str × Str × Str)) (st : JobMap), invC6 st = true →
      invC6 (calls.foldl (fun st c => recordBuild st c.1 c.2.1 c.2.2.1 c.2.2.2) st) = true := by
  intro calls
  induction calls with
  | nil => intro st h; exact h
  | cons c rest ih =>
    intro st h
    exact ih _ (invC6_recordBuild st c.1 c.2.1 c.2.2.1 c.2.2.2 h)

theorem countOf_recordBuild (st : JobMap) (j c m u : Str) :
    countOf (recordBuild st j c m u) j c = countOf st j c + 1 := by
  unfold countOf aggOf catsOf recordBuild
  rw [alLookup_alUpdate]
  simp only [Option.getD_some]
  rw [alLookup_alUpdate]
  simp

/-! ### Claim C6 -/

/-- C6 (amended): along the normal recording path every build URL is
deduplicated within its canonical message's list while the count is
incremented by exactly 1 per call — in particular two identical `record`
calls yield count 2 and a one-element URL list; the synthetic
`LogFetchError` path however appends the URL unconditionally and does not
deduplicate. -/
theorem C6_dedup_and_count :
    (∀ calls : List (Str × Str × Str × Str), invC6 (applyCalls calls) = true) ∧
    (∀ (st : JobMap) (j c m u : Str),
      countOf (recordBuild st j c m u) j c = countOf st j c + 1) ∧
    (countOf (applyCalls [("j".data, "c".data, "m".data, "u".data),
        ("j".data, "c".data, "m".data, "u".data)]) ("j".data) ("c".data) = 2 ∧
      urlsOf (applyCalls [("j".data, "c".data, "m".data, "u".data),
        ("j".data, "c".data, "m".data, "u".data)]) ("j".data) ("c".data) ("m".data) =
        ["u".data]) :=
  ⟨fun calls => invC6_applyCalls calls [] (by rfl),
   countOf_recordBuild,
   by decide, by decide⟩

/-- C6 (counterexample): two `LogFetchError` records for the same build
URL store that URL twice in the message's list — the claimed URL-level
deduplication fails on the fetch-error path. -/
theorem C6_counterexample :
    (urlsOf (recordFetchError (recordFetchError [] ("j".data) ("u".data))
        ("j".data) ("u".data))
      ("j".data) ("LogFetchError".data) fetchErrMsg).count ("u".data) = 2 := by
  decide

/-! ### Claim C10 -/

theorem addUrlDedup_isEmpty_false (u : Str) (urls : List Str)
    (h : urls.isEmpty = false) : (addUrlDedup u urls).isEmpty = false := by
  unfold addUrlDedup
  by_cases hm : u ∈ urls
  · rw [if_pos hm]; exact h
  · rw [if_neg hm]
    cases urls <;> rfl

theorem invC10_applyStep (st : JobMap) (s : ProcStep) (h : invC10 st = true) :
    invC10 (applyStep st s) = true := by
  cases s with
  | build j c m u =>
    unfold invC10 applyStep recordBuild
    apply alUpdate_all _ _ _ _ ?_ ?_ _ h
    · simp [emptyAgg, alUpdate, addUrlDedup]
    · intro j' cats hcats
      apply alUpdate_all _ _ _ _ ?_ ?_ _ hcats
      · simp [emptyAgg, alUpdate, addUrlDedup]
      · intro c' a ha
        simp only [Bool.and_eq_true] at ha ⊢
        refine ⟨⟨by simp, ?_⟩, ?_⟩
        · rw [Bool.not_eq_true']
          exact alUpdate_isEmpty_false _ _ _ _
        · apply alUpdate_all _ _ _ _ ?_ ?_ _ ha.2
          · simp [addUrlDedup]
          · intro m' urls hurls
            rw [Bool.not_eq_true'] at hurls ⊢
            exact addUrlDedup_isEmpty_false u urls hurls
  | fetchFail j u =>
    unfold invC10 applyStep recordFetchError
    apply alUpdate_all _ _ _ _ ?_ ?_ _ h
    · simp [emptyAgg, alUpdate, fetchErrMsg]
    · intro j' cats hcats
      apply alUpdate_all _ _ _ _ ?_ ?_ _ hcats
      · simp [emptyAgg, alUpdate, fetchErrMsg]
      · intro c' a ha
        simp only [Bool.and_eq_true] at ha ⊢
        refine ⟨⟨by simp, ?_⟩, ?_⟩
        · rw [Bool.not_eq_true']
          exact alUpdate_isEmpty_false _ _ _ _
        · apply alUpdate_all _ _ _ _ ?_ ?_ _ ha.2
          · simp
          · intro m' urls hurls
            rw [Bool.not_eq_true'] at hurls ⊢
            cases urls <;> rfl

/-- C10: in every aggregate state reachable by processing a sequence of
builds (successful analyses and failed fetches alike) from the empty
mapping, every (job, category) entry present has count at least 1, a
non-empty message mapping, and a non-empty build-URL list for every
message — entries are created only by a recording step. -/
theorem C10_entries_nonempty (steps : List ProcStep) :
    invC10 (applySteps steps) = true := by
  unfold applySteps
  have haux : ∀ (ss : List ProcStep) (st : JobMap), invC10 st = true →
      invC10 (ss.foldl applyStep st) = true := by
    intro ss
    induction ss with
    | nil => intro st h; exact h
    | cons s rest ih => intro st h; exact ih _ (invC10_applyStep st s h)
  exact haux steps [] (by rfl)

/-! ### Claim C4 -/

theorem matchExcPrefix_ne_nil : ∀ (l s : Str), matchExcPrefix l = some s → s.isEmpty = false := by
  intro l s h
  cases l with
  | nil => simp [matchExcPrefix] at h
  | cons hd tl =>
    simp only [matchExcPrefix] at h
    by_cases hh : isIdentHead hd
    · rw [if_pos hh] at h
      simp only [Option.map_eq_some'] at h
      obtain ⟨a, _, rfl⟩ := h
      rfl
    · rw [if_neg hh] at h; cases h

theorem wsSplitGo_ne_nil : ∀ (fuel : Nat) (l : Str), ∀ t ∈ wsSplitGo fuel l, t.isEmpty = false := by
  intro fuel
  induction fuel with
  | zero => intro l t ht; simp [wsSplitGo] at ht
  | succ f ih =>
    intro l t ht
    simp only [wsSplitGo] at ht
    cases hd : l.dropWhile isSpaceC with
    | nil => rw [hd] at ht; simp at ht
    | cons c rest =>
      rw [hd] at ht
      rcases List.mem_cons.mp ht with rfl | h'
      · rfl
      · exact ih _ t h'

theorem strContains_target_ne_nil (sub l : Str) (h : strContains sub l = true)
    (hs : sub.isEmpty = false) : l.isEmpty = false := by
  cases l with
  | nil => unfold strContains at h; rw [h] at hs; cases hs
  | cons c rest => rfl

theorem headD_wsSplit_ne_nil (x : Str) :
    ((wsSplit x).headD ("Unknown".data)).isEmpty = false := by
  cases hws : wsSplit x with
  | nil => rfl
  | cons t ts =>
    rw [List.headD_cons]
    rw [wsSplit] at hws
    have hmem : t ∈ wsSplitGo (x.length + 1) x := by
      rw [hws]
      exact List.mem_cons_self _ _
    exact wsSplitGo_ne_nil _ _ t hmem

theorem length_pos_isEmpty_false (x : Str) (hx : 3 < x.length) : x.isEmpty = false := by
  cases x with
  | nil => simp at hx
  | cons a b => rfl

/-- C4 (amended): the classifier is total and never returns an empty
category — `"BuildFailure"` is the ultimate fallback and the empty line
maps to `"Unknown"` — but `"Unknown"` is not reserved for the empty line:
it is also returned for some non-empty inputs (for example a whitespace
line or a bare timestamp/level prefix, whose remainder after prefix
stripping is empty). -/
theorem C4_classifier_never_empty :
    (∀ l : Str, (_extract_exception_type l).isEmpty = false) ∧
    _extract_exception_type [] = "Unknown".data := by
  refine ⟨?_, by decide⟩
  intro l
  simp only [_extract_exception_type]
  split
  · rfl
  · split
    · rfl
    · split
      · next ident hm => exact matchExcPrefix_ne_nil _ ident hm
      · split
        · rename_i r hcond
          split at hcond
          · split at hcond
            · cases hcond
              rename_i hc1
              rw [Bool.and_eq_true] at hc1
              exact strContains_target_ne_nil _ _ hc1.1 (by rfl)
            · split at hcond
              · cases hcond
                rename_i hc2
                rw [Bool.and_eq_true, Bool.and_eq_true] at hc2
                exact length_pos_isEmpty_false _ (of_decide_eq_true hc2.2)
              · cases hcond
          · cases hcond
        · split
          · exact headD_wsSplit_ne_nil _
          · rfl

/-- C4 (counterexample): the single-space line is non-empty yet the
classifier returns `"Unknown"` for it, refuting that `"Unknown"` is
returned only for an empty input line. -/
theorem C4_counterexample :
    _extract_exception_type [' '] = "Unknown".data ∧ ([' '] : Str).isEmpty = false := by
  decide

/-! ### Claim C1 -/

theorem pDigits_sfx : ∀ (n : Nat) (l r : Str), pDigits n l = some r → r <:+ l := by
  intro n
  induction n with
  | zero => intro l r h; cases h; exact List.suffix_refl _
  | succ k ih =>
    intro l r h
    cases l with
    | nil => cases h
    | cons x xs =>
      simp only [pDigits] at h
      by_cases hd : x.isDigit
      · rw [if_pos hd] at h
        exact (ih xs r h).trans (List.suffix_cons _ _)
      · rw [if_neg hd] at h; cases h

theorem pExact_sfx (c : Char) (l r : Str) (h : pExact c l = some r) : c ∈ l ∧ r <:+ l := by
  cases l with
  | nil => cases h
  | cons x xs =>
    simp only [pExact] at h
    by_cases hx : x = c
    · rw [if_pos hx] at h
      cases h
      exact ⟨hx ▸ List.mem_cons_self _ _, List.suffix_cons _ _⟩
    · rw [if_neg hx] at h; cases h

theorem parseTsCore_colon (l r : Str) (h : parseTsCore l = some r) : ':' ∈ l := by
  unfold parseTsCore at h
  obtain ⟨a1, h1, h2⟩ := Option.bind_eq_some.mp h
  obtain ⟨a2, h2a, _⟩ := Option.bind_eq_some.mp h2
  obtain ⟨a3, h3, h4⟩ := Option.bind_eq_some.mp h1
  obtain ⟨a4, h5, h6⟩ := Option.bind_eq_some.mp h3
  obtain ⟨a5, h7, h8⟩ := Option.bind_eq_some.mp h5
  obtain ⟨a6, h9, h10⟩ := Option.bind_eq_some.mp h7
  obtain ⟨a7, h11, h12⟩ := Option.bind_eq_some.mp h9
  obtain ⟨a8, h13, h14⟩ := Option.bind_eq_some.mp h11
  obtain ⟨a9, h15, h16⟩ := Option.bind_eq_some.mp h13
  obtain ⟨a10, h17, h18⟩ := Option.bind_eq_some.mp h15
  -- h17 : pDigits 4 l = some a10, h18 : pExact '-' a10 = some a9,
  -- h16 : pDigits 2 a9 = some a8, h14 : pExact '-' a8 = some a7,
  -- h12 : pDigits 2 a7 = some a6, h10 : pExact ' ' a6 = some a5,
  -- h8 : pDigits 2 a5 = some a4, h6 : pExact ':' a4 = some a3.
  have s10 : a10 <:+ l := pDigits_sfx 4 l a10 h17
  have s9 : a9 <:+ a10 := (pExact_sfx '-' a10 a9 h18).2
  have s8 : a8 <:+ a9 := pDigits_sfx 2 a9 a8 h16
  have s7 : a7 <:+ a8 := (pExact_sfx '-' a8 a7 h14).2
  have s6 : a6 <:+ a7 := pDigits_sfx 2 a7 a6 h12
  have s5 : a5 <:+ a6 := (pExact_sfx ' ' a6 a5 h10).2
  have s4 : a4 <:+ a5 := pDigits_sfx 2 a5 a4 h8
  have hmem : ':' ∈ a4 := (pExact_sfx ':' a4 a3 h6).1
  exact (((((((s4.trans s5).trans s6).trans s7).trans s8).trans s9).trans s10)).sublist.subset hmem

theorem tokenSubGo_no_quote (q : Char) :
    ∀ (l : Str) (fuel : Nat), q ∉ l → tokenSubGo q fuel l = l := by
  intro l
  induction l with
  | nil => intro fuel _; cases fuel <;> rfl
  | cons c rest ih =>
    intro fuel h
    cases fuel with
    | zero => rfl
    | succ f =>
      simp only [tokenSubGo]
      have hcq : ¬(c = q) := fun he => h (he ▸ List.mem_cons_self _ _)
      rw [if_neg hcq, ih f (fun hr => h (List.mem_cons_of_mem _ hr))]

theorem pyStrip_subset (l : Str) : ∀ x ∈ pyStrip l, x ∈ l := by
  intro x hx
  unfold pyStrip at hx
  rw [List.mem_reverse] at hx
  have h1 := (List.dropWhile_sublist (l := (l.dropWhile isSpaceC).reverse)
    (p := isSpaceC)).subset hx
  rw [List.mem_reverse] at h1
  exact (List.dropWhile_sublist (l := l) (p := isSpaceC)).subset h1

theorem dropWhile_head_false (p : Char → Bool) :
    ∀ (l : Str) (x : Char) (xs : Str), l.dropWhile p = x :: xs → p x = false := by
  intro l
  induction l with
  | nil => intro x xs h; cases h
  | cons c rest ih =>
    intro x xs h
    rw [List.dropWhile_cons] at h
    by_cases hp : p c
    · rw [if_pos hp] at h; exact ih x xs h
    · rw [if_neg hp] at h
      cases h
      simpa using hp

theorem dropWhile_idem (p : Char → Bool) :
    ∀ l : Str, (l.dropWhile p).dropWhile p = l.dropWhile p := by
  intro l
  induction l with
  | nil => rfl
  | cons c rest ih =>
    rw [List.dropWhile_cons]
    by_cases hp : p c
    · rw [if_pos hp]; exact ih
    · rw [if_neg hp, List.dropWhile_cons, if_neg hp]

theorem pyStrip_idem (l : Str) : pyStrip (pyStrip l) = pyStrip l := by
  unfold pyStrip
  have hBd : (((l.dropWhile isSpaceC).reverse.dropWhile isSpaceC).reverse).dropWhile isSpaceC =
      ((l.dropWhile isSpaceC).reverse.dropWhile isSpaceC).reverse := by
    cases hB : ((l.dropWhile isSpaceC).reverse.dropWhile isSpaceC).reverse with
    | nil => rfl
    | cons b bs =>
      have h0 : (l.dropWhile isSpaceC).reverse.takeWhile isSpaceC ++
          (l.dropWhile isSpaceC).reverse.dropWhile isSpaceC = (l.dropWhile isSpaceC).reverse :=
        List.takeWhile_append_dropWhile _ _
      have h1 := congrArg List.reverse h0
      rw [List.reverse_append, List.reverse_reverse, hB] at h1
      have hpb : isSpaceC b = false := by
        apply dropWhile_head_false isSpaceC l b
          (bs ++ ((l.dropWhile isSpaceC).reverse.takeWhile isSpaceC).reverse)
        exact h1.symm
      rw [List.dropWhile_cons, if_neg (by simp [hpb])]
  rw [hBd, List.reverse_reverse, dropWhile_idem]

theorem normalize_eq_strip_of_no_specials (m : Str)
    (hc : ':' ∉ m) (hq1 : squote ∉ m) (hq2 : '"' ∉ m) :
    _normalize_exception_line m = pyStrip m := by
  by_cases hm : m = []
  · subst hm; rfl
  · have hts : dropLongTs m = none := by
      cases hp : parseTsCore m with
      | none => unfold dropLongTs; rw [hp]; rfl
      | some r => exact absurd (parseTsCore_colon m r hp) hc
    simp only [_normalize_exception_line, hts, if_neg hm]
    have hq1' : squote ∉ pyStrip m := fun h => hq1 (pyStrip_subset m _ h)
    have hq2' : '"' ∉ pyStrip m := fun h => hq2 (pyStrip_subset m _ h)
    have hc' : ':' ∉ pyStrip m := fun h => hc (pyStrip_subset m _ h)
    simp only [tokenSub]
    rw [tokenSubGo_no_quote squote _ _ hq1']
    rw [tokenSubGo_no_quote '"' _ _ hq2']
    cases hps : pyStrip m with
    | nil => rfl
    | cons c rest =>
      have hcc : ¬(c = ':') := fun he =>
        hc' (hps ▸ (he ▸ List.mem_cons_self c rest))
      unfold stripLeadColon
      split
      · next heq => exact absurd (by cases heq; rfl) hcc
      · rfl

/-- C1 (amended): the normalizer is pure and total, and it is idempotent
on every input containing no colon and no single- or double-quote
character (on such inputs it reduces to whitespace stripping, which is
idempotent); on general inputs a second application can differ — the
leading-colon cleanup can expose another leading colon, as at `"::x"`. -/
theorem C1_normalize_idem_no_specials (l : Str)
    (hc : ':' ∉ l) (hq1 : squote ∉ l) (hq2 : '"' ∉ l) :
    _normalize_exception_line (_normalize_exception_line l) = _normalize_exception_line l := by
  have h1 := normalize_eq_strip_of_no_specials l hc hq1 hq2
  have h2 := normalize_eq_strip_of_no_specials (pyStrip l)
    (fun h => hc (pyStrip_subset l _ h))
    (fun h => hq1 (pyStrip_subset l _ h))
    (fun h => hq2 (pyStrip_subset l _ h))
  rw [h1, h2, pyStrip_idem]

/-- C1 (counterexample): `normalize` is not idempotent — on `"::x"` the
first application strips one leading colon yielding `":x"`, and a second
application strips the newly exposed colon yielding `"x"`. -/
theorem C1_counterexample :
    _normalize_exception_line ("::x".data) = (":x".data) ∧
    _normalize_exception_line (":x".data) = ("x".data) ∧
    (("x".data : Str) == (":x".data : Str)) = false := by
  decide

/-- C1 (witness): a concrete colon- and quote-free line on which the
normalizer is idempotent. -/
theorem C1_normalize_idem_no_specials_witness :
    (':' ∉ ("abc".data : Str)) ∧ (squote ∉ ("abc".data : Str)) ∧ ('"' ∉ ("abc".data : Str)) ∧
    _normalize_exception_line (_normalize_exception_line ("abc".data)) =
      _normalize_exception_line ("abc".data) :=
  ⟨by decide, by decide, by decide,
    C1_normalize_idem_no_specials _ (by decide) (by decide) (by decide)⟩

/-! ### Claim C7 -/

theorem strLe_total : ∀ a b : Str, strLe a b = true ∨ strLe b a = true := by
  intro a
  induction a with
  | nil => intro b; left; rfl
  | cons x as ih =>
    intro b
    cases b with
    | nil => right; rfl
    | cons y bs =>
      simp only [strLe]
      rcases lt_trichotomy x y with hxy | hxy | hxy
      · left; rw [if_pos hxy]
      · subst hxy
        simp only [if_neg (lt_irrefl x)]
        exact ih bs
      · right; rw [if_pos hxy]

theorem strLe_trans :
    ∀ a b c : Str, strLe a b = true → strLe b c = true → strLe a c = true := by
  intro a
  induction a with
  | nil => intro b c _ _; rfl
  | cons x as ih =>
    intro b c hab hbc
    cases b with
    | nil => simp [strLe] at hab
    | cons y bs =>
      cases c with
      | nil => simp [strLe] at hbc
      | cons z cs =>
        simp only [strLe] at hab hbc ⊢
        rcases lt_trichotomy x y with hxy | hxy | hxy
        · rcases lt_trichotomy y z with hyz | hyz | hyz
          · rw [if_pos (lt_trans hxy hyz)]
          · subst hyz; rw [if_pos hxy]
          · rw [if_neg (lt_asymm hyz), if_pos hyz] at hbc; cases hbc
        · subst hxy
          simp only [if_neg (lt_irrefl x)] at hab
          rcases lt_trichotomy x z with hyz | hyz | hyz
          · rw [if_pos hyz]
          · subst hyz
            simp only [if_neg (lt_irrefl x)] at hbc ⊢
            exact ih bs cs hab hbc
          · rw [if_neg (lt_asymm hyz), if_pos hyz] at hbc; cases hbc
        · rw [if_neg (lt_asymm hxy), if_pos hxy] at hab; cases hab

instance : IsTotal (Str × CatMap) rName := ⟨fun a b => strLe_total a.1 b.1⟩

instance : IsTrans (Str × CatMap) rName := ⟨fun a b c => strLe_trans a.1 b.1 c.1⟩

/-- C7 (amended): the Slack consumers iterate jobs by descending total
failure count and categories within a job by descending count, with ties
(already-sorted inputs) left in first-seen insertion order, as witnessed
by the sort being a permutation and the sort fixing sorted inputs; the
console consumer (`print_console_summary`) instead iterates jobs and
categories in ascending name order. -/
theorem C7_presentation_order :
    (∀ st : JobMap, List.Sorted rJobs (slackSortedJobs st) ∧ (slackSortedJobs st).Perm st) ∧
    (∀ st : JobMap, List.Sorted rJobs st → slackSortedJobs st = st) ∧
    (∀ cats : CatMap, List.Sorted rCats (slackSortedCats cats) ∧
      (slackSortedCats cats).Perm cats ∧
      (List.Sorted rCats cats → slackSortedCats cats = cats)) ∧
    (∀ st : JobMap, List.Sorted rName (consoleSortedJobs st) ∧ (consoleSortedJobs st).Perm st) :=
  ⟨fun st => ⟨List.sorted_insertionSort rJobs st, List.perm_insertionSort rJobs st⟩,
   fun _ h => List.Sorted.insertionSort_eq h,
   fun cats => ⟨List.sorted_insertionSort rCats cats, List.perm_insertionSort rCats cats,
     fun h => List.Sorted.insertionSort_eq h⟩,
   fun st => ⟨List.sorted_insertionSort rName st, List.perm_insertionSort rName st⟩⟩

/-- C7 (counterexample): on an index where job `"b"` has 2 failures and
job `"a"` has 1, the console consumer iterates `"a"` first (ascending name
order), so its job order is not sorted by descending total failure count
— the claim fails for that presentation consumer. -/
theorem C7_counterexample :
    (consoleSortedJobs
        [("b".data, [("c".data, (⟨2, [("m".data, ["u".data])]⟩ : TypeAgg))]),
         ("a".data, [("d".data, (⟨1, [("m".data, ["u".data])]⟩ : TypeAgg))])]).map Prod.fst =
      ["a".data, "b".data] ∧
    (decide (List.Sorted rJobs (consoleSortedJobs
        [("b".data, [("c".data, (⟨2, [("m".data, ["u".data])]⟩ : TypeAgg))]),
         ("a".data, [("d".data, (⟨1, [("m".data, ["u".data])]⟩ : TypeAgg))])]))) = false := by
  decide

/-- C7 (witness): a concrete two-job index already in descending-count
order is left unchanged by the Slack sort (first-seen order kept). -/
theorem C7_presentation_order_witness :
    List.Sorted rJobs
      [("a".data, [("c".data, (⟨2, [("m".data, ["u".data])]⟩ : TypeAgg))]),
       ("b".data, [("d".data, (⟨1, [("m".data, ["u".data])]⟩ : TypeAgg))])] ∧
    slackSortedJobs
      [("a".data, [("c".data, (⟨2, [("m".data, ["u".data])]⟩ : TypeAgg))]),
       ("b".data, [("d".data, (⟨1, [("m".data, ["u".data])]⟩ : TypeAgg))])] =
      [("a".data, [("c".data, (⟨2, [("m".data, ["u".data])]⟩ : TypeAgg))]),
       ("b".data, [("d".data, (⟨1, [("m".data, ["u".data])]⟩ : TypeAgg))])] :=
  ⟨by decide, C7_presentation_order.2.1 _ (by decide)⟩

/-! ### Claim C9 -/

theorem inf_of_pre (sub y : Str) (h : sub <+: y) : sub <:+: y := by
  obtain ⟨w, hw⟩ := h
  exact ⟨[], w, by simpa using hw⟩

theorem strContains_iff (sub : Str) : ∀ l : Str, strContains sub l = true ↔ sub <:+: l := by
  intro l
  induction l with
  | nil =>
    simp only [strContains]
    constructor
    · intro h
      have hsubnil : sub = [] := by
        cases sub with
        | nil => rfl
        | cons a b => cases h
      subst hsubnil
      exact ⟨[], [], rfl⟩
    · rintro ⟨s, t, hst⟩
      have hs : s = [] ∧ sub = [] ∧ t = [] := by
        constructor
        · cases s with
          | nil => rfl
          | cons a b => cases hst
        · constructor
          · cases s with
            | nil =>
              cases sub with
              | nil => rfl
              | cons a b => cases hst
            | cons a b => cases hst
          · cases s with
            | nil =>
              cases sub with
              | nil =>
                cases t with
                | nil => rfl
                | cons a b => cases hst
              | cons a b => cases hst
            | cons a b => cases hst
      rw [hs.2.1]
      rfl
  | cons c rest ih =>
    simp only [strContains]
    constructor
    · intro h
      rw [Bool.or_eq_true] at h
      rcases h with h1 | h2
      · have hp : sub <+: c :: rest := by simpa using h1
        exact inf_of_pre _ _ hp
      · obtain ⟨s, t, hst⟩ := ih.mp h2
        exact ⟨c :: s, t, by rw [← hst]; rfl⟩
    · rintro ⟨s, t, hst⟩
      rw [Bool.or_eq_true]
      cases s with
      | nil =>
        left
        have hp : sub <+: c :: rest := ⟨t, by simpa using hst⟩
        simpa using hp
      | cons a s' =>
        right
        apply ih.mpr
        injection hst with h1 h2
        exact ⟨s', t, h2⟩

theorem pre_of_append_of_len_le (sub y z : Str) (h : sub <+: y ++ z)
    (hlen : sub.length ≤ y.length) : sub <+: y := by
  obtain ⟨t, ht⟩ := h
  have h1 : (y ++ z).take sub.length = sub := by
    rw [← ht, List.take_left]
  have h2 : (y ++ z).take sub.length = y.take sub.length :=
    List.take_append_of_le_length hlen
  have hsub : y.take sub.length = sub := h2.symm.trans h1
  refine ⟨y.drop sub.length, ?_⟩
  nth_rewrite 1 [← hsub]
  exact List.take_append_drop _ _

theorem mem_of_pre_append_long (sub y z : Str) (c : Char)
    (h : sub <+: y ++ c :: z) (hlen : y.length < sub.length) : c ∈ sub := by
  obtain ⟨t, ht⟩ := h
  have hc : (sub ++ t)[y.length]? = some c := by
    rw [ht, List.getElem?_append_right (Nat.le_refl _)]
    simp
  rw [List.getElem?_append, if_pos hlen] at hc
  rw [List.getElem?_eq_some_iff] at hc
  obtain ⟨hlt, heq⟩ := hc
  exact heq ▸ List.getElem_mem _

theorem sub_of_append_cons (sub : Str) (c : Char) (hne : sub ≠ []) (hc : c ∉ sub) :
    ∀ (y z : Str), sub <:+: y ++ c :: z → sub <:+: y ∨ sub <:+: z := by
  intro y
  induction y with
  | nil =>
    intro z h
    obtain ⟨s, t, hst⟩ := h
    cases s with
    | nil =>
      cases sub with
      | nil => exact absurd rfl hne
      | cons a as =>
        simp only [List.nil_append, List.cons_append] at hst
        injection hst with h1 _
        exact absurd (h1 ▸ List.mem_cons_self a as) hc
    | cons a s' =>
      simp only [List.nil_append, List.cons_append] at hst
      injection hst with _ h2
      exact Or.inr ⟨s', t, h2⟩
  | cons x y' ih =>
    intro z h
    obtain ⟨s, t, hst⟩ := h
    cases s with
    | nil =>
      have hp : sub <+: (x :: y') ++ c :: z := ⟨t, by simpa using hst⟩
      by_cases hlen : sub.length ≤ (x :: y').length
      · exact Or.inl (inf_of_pre _ _ (pre_of_append_of_len_le sub (x :: y') (c :: z) hp hlen))
      · exact absurd (mem_of_pre_append_long sub (x :: y') z c hp (by omega)) hc
    | cons a s' =>
      simp only [List.cons_append] at hst
      injection hst with _ h2
      rcases ih z ⟨s', t, h2⟩ with hl | hr
      · obtain ⟨s2, t2, h3⟩ := hl
        exact Or.inl ⟨x :: s2, t2, by rw [← h3]; rfl⟩
      · exact Or.inr hr

theorem strContains_joinNL_false (sub : Str) (hne : sub ≠ []) (hnl : '\n' ∉ sub) :
    ∀ ls : List Str, (∀ l ∈ ls, strContains sub l = false) →
      strContains sub (joinNL ls) = false := by
  intro ls
  induction ls with
  | nil =>
    intro _
    cases sub with
    | nil => exact absurd rfl hne
    | cons a b => rfl
  | cons l ls ih =>
    intro h
    cases ls with
    | nil => exact h l (List.mem_cons_self _ _)
    | cons l2 ls2 =>
      have hj : joinNL (l :: l2 :: ls2) = l ++ '\n' :: joinNL (l2 :: ls2) := rfl
      rw [hj]
      by_contra hcon
      rw [Bool.not_eq_false] at hcon
      have hinf := (strContains_iff sub _).mp hcon
      rcases sub_of_append_cons sub '\n' hne hnl l (joinNL (l2 :: ls2)) hinf with h1 | h2
      · have := (strContains_iff sub l).mpr h1
        rw [h l (List.mem_cons_self _ _)] at this
        cases this
      · have := (strContains_iff sub (joinNL (l2 :: ls2))).mpr h2
        rw [ih (fun x hx => h x (List.mem_cons_of_mem _ hx))] at this
        cases this

/-- C9: for every input log and ignore list, the context string returned
by the extractor never contains the literal build-failure marker line, on
the exception path, the fallback path and the sentinel path alike. -/
theorem C9_context_no_marker (log : Str) (ignore : List Str) :
    strContains markerStr (extract_exception_from_log log ignore).2 = false := by
  unfold extract_exception_from_log
  cases hex : exceptionIdx ignore (linesOf log) with
  | some ei =>
    simp only [hex]
    apply strContains_joinNL_false markerStr (by decide) (by decide)
    intro x hx
    exact windowSlice_no_marker _ _ x hx
  | none =>
    cases hfb : fallbackIdx ignore (linesOf log) with
    | some i =>
      simp only [hex, hfb]
      apply strContains_joinNL_false markerStr (by decide) (by decide)
      intro x hx
      exact windowSlice_no_marker _ _ x hx
    | none =>
      simp only [hex, hfb]
      rfl
